import Mathlib

/-
Verification development for the audio-clip synchronization pipeline
(src/index.ts).  The TypeScript source is shallowly embedded below:

* stream descriptors and the ytdl response are `StreamFormat` /
  `ProviderInfo`; a failed URL parse or fetch is modelled as a `none`
  response;
* `getVideoMeta` embeds the function of the same name (lines 98-127):
  it filters the formats on `hasAudio`, takes the lodash `maxBy` on the
  numeric sample rate (missing rate coerces to 0, ties keep the first
  element, exactly as lodash does), and fails when no format remains or
  the chosen format has no sample rate;
* `sanitizeFilename` embeds the npm sanitize-filename package with its
  default empty replacement (illegal/control characters removed,
  dot-only and Windows-reserved names emptied, trailing dots/spaces
  stripped, 255-byte truncation);
* `processRecord` / `runPipeline` embed the per-record body of
  `downloadAudioclip` (lines 164-212) over an explicit `RunState`:
  the video-meta cache, the set of files present in the temp dir, the
  in-memory index, and logs of provider invocations and encoder
  invocations; UUIDv4 generation is modelled by a run counter producing
  pairwise distinct ids;
* the JSON layer (`encodeIndex` / `decodeIndex`, `persistIndex` /
  `loadIndex`) embeds `JSON.stringify` / `JSON.parse` of the index file
  at the level of a JSON syntax tree, with `undefined` object fields
  dropped the way `JSON.stringify` drops them (an absent field decodes
  back to `none`).
-/

/-- One stream descriptor as returned by the resolution provider
(ytdl `format`): `audioSampleRate` is absent or a numeric string,
modelled as `Option Nat`. -/
structure StreamFormat where
  hasAudio : Bool
  audioSampleRate : Option Nat
  url : String
deriving Repr, DecidableEq

/-- The successful provider response for a URL: video details plus the
candidate formats. -/
structure ProviderInfo where
  videoId : String
  video_url : String
  title : String
  formats : List StreamFormat
deriving Repr, DecidableEq

/-- The chosen audio source inside `IVideoMeta`. -/
structure VideoSource where
  asr : Nat
  url : String
deriving Repr, DecidableEq

/-- Resolved video metadata (interface `IVideoMeta`, lines 88-96). -/
structure IVideoMeta where
  id : String
  url : String
  title : String
  source : VideoSource
deriving Repr, DecidableEq

/-- The lodash `maxBy` iteratee `+(i.audioSampleRate || 0)`: a missing
sample rate counts as 0. -/
def formatKey (f : StreamFormat) : Nat :=
  f.audioSampleRate.getD 0

/-- One step of lodash `maxBy`: keep the accumulator unless the next
element is strictly greater, so the first maximal element wins. -/
def maxStep (acc y : StreamFormat) : StreamFormat :=
  if formatKey acc < formatKey y then y else acc

/-- lodash `maxBy` on the sample-rate key: `none` on the empty list,
otherwise the first element of maximal key. -/
def lodashMaxBy : List StreamFormat → Option StreamFormat
  | [] => none
  | x :: xs => some (xs.foldl maxStep x)

/-- Embeds `maxBy(info.formats.filter((i) => i.hasAudio), (i) => +(i.audioSampleRate || 0))`
(line 108). -/
def selectBestFormat (formats : List StreamFormat) : Option StreamFormat :=
  lodashMaxBy (formats.filter (fun f => f.hasAudio))

/-- Embeds `getVideoMeta` (lines 98-127).  A `none` argument models the catch
path where `ytdl.getURLVideoID` rejects the URL (or the info fetch
throws); otherwise the best audio format is selected and the function
fails (returns `none`, the caught `no_format_found` throw) when no
format carries audio or the selected format has no sample rate. -/
def getVideoMeta : Option ProviderInfo → Option IVideoMeta
  | none => none
  | some info =>
    match selectBestFormat info.formats with
    | none => none
    | some f =>
      match f.audioSampleRate with
      | none => none
      | some asr =>
        some { id := info.videoId, url := info.video_url,
               title := info.title, source := { asr := asr, url := f.url } }

/-- Characters removed by the sanitize-filename package (its
`illegalRe`): forward and back slash, question mark, angle brackets,
colon, star, pipe, double quote. -/
def illegalChars : List Char := ['/', '?', '<', '>', '\\', ':', '*', '|', '"']

/-- The package's `controlRe`: C0 controls and the 0x80-0x9f range. -/
def isControlChar (c : Char) : Bool :=
  c.toNat ≤ 31 || (128 ≤ c.toNat && c.toNat ≤ 159)

/-- Remove every illegal or control character (replacement is the
default empty string). -/
def removeIllegal (s : String) : String :=
  String.mk (s.toList.filter (fun c => !(illegalChars.contains c || isControlChar c)))

/-- The package's `reservedRe` `^\.+$`: a non-empty all-dots name. -/
def isReservedDots (s : String) : Bool :=
  !s.toList.isEmpty && s.toList.all (fun c => c = '.')

def windowsReservedNames : List String :=
  ["con", "prn", "aux", "nul",
   "com0", "com1", "com2", "com3", "com4", "com5", "com6", "com7", "com8", "com9",
   "lpt0", "lpt1", "lpt2", "lpt3", "lpt4", "lpt5", "lpt6", "lpt7", "lpt8", "lpt9"]

/-- Boolean prefix test on character lists. -/
def isPrefixL : List Char → List Char → Bool
  | [], _ => true
  | _ :: _, [] => false
  | p :: ps, c :: cs => (p = c) && isPrefixL ps cs

/-- The package's case-insensitive `windowsReservedRe`
`^(con|prn|aux|nul|com[0-9]|lpt[0-9])(\..*)?$`. -/
def isWindowsReserved (s : String) : Bool :=
  let cs := s.toList.map Char.toLower
  windowsReservedNames.any (fun r => cs = r.toList || isPrefixL (r.toList ++ ['.']) cs)

/-- The package's `windowsTrailingRe` `[\. ]+$`: strip trailing dots
and spaces. -/
def stripTrailing (s : String) : String :=
  String.mk ((s.toList.reverse.dropWhile (fun c => c = '.' || c = ' ')).reverse)

/-- truncate-utf8-bytes: keep a maximal prefix of at most `n` UTF-8
bytes without splitting a character. -/
def truncateBytes (n : Nat) : List Char → List Char
  | [] => []
  | c :: cs => if c.utf8Size ≤ n then c :: truncateBytes (n - c.utf8Size) cs else []

/-- The npm sanitize-filename package with the default empty
replacement, applied at line 178. -/
def sanitizeFilename (input : String) : String :=
  let s1 := removeIllegal input
  let s2 := if isReservedDots s1 then "" else s1
  let s3 := if isWindowsReserved s2 then "" else s2
  let s4 := stripTrailing s3
  String.mk (truncateBytes 255 s4.toList)

/-- One catalog record as read from the remote store.  The store rows
are untyped (`any`), so every optional attribute is an `Option`;
`startTime` and `duration` are raw strings, exactly as the code passes
them around. -/
structure ResourceRecord where
  id : String
  title : String
  videoUrl : String
  description : Option String := none
  author : Option String := none
  startTime : Option String := none
  duration : Option String := none
deriving Repr, DecidableEq

/-- Embeds `sanitizeFilename(record.id + "-" + record.title + ".mp3")`
(line 178). -/
def deriveFilename (record : ResourceRecord) : String :=
  sanitizeFilename (record.id ++ "-" ++ record.title ++ ".mp3")

/-- Field `contributor` of `IResourceMeta`.  The declared TypeScript type has
a mandatory `name : string`, but the code stores `record.author`, which
may be absent at runtime, so `name` is an `Option`. -/
structure Contributor where
  name : Option String
  link : Option String
deriving Repr, DecidableEq

/-- Field `source` of `IResourceMeta` (lines 50-54).  The declared type of
`startTime` is `number`, but the code stores the record's raw
`startTime` value, which is an optional string at runtime. -/
structure MetaSource where
  url : String
  title : String
  startTime : Option String
deriving Repr, DecidableEq

/-- Field `filemeta` of `IResourceMeta` (lines 58-62); never populated by the
pipeline. -/
structure Filemeta where
  md5 : Option String
  size : Option Nat
  duration : Option Nat
deriving Repr, DecidableEq

/-- Interface `IResourceMeta` (lines 38-63), with runtime-accurate
field types (see `Contributor` and `MetaSource`). -/
structure IResourceMeta where
  id : String
  refId : String
  title : String
  filename : String
  description : Option String
  contributor : Option Contributor
  catalog : Option String
  tags : Option (List String)
  source : MetaSource
  language : Option (List (String × String))
  filemeta : Option Filemeta
deriving Repr, DecidableEq

/-- Interface `IResourceIndex` (lines 31-36): the `resources` object is
an association list from filename to metadata, in insertion order. -/
structure IResourceIndex where
  v : Nat
  resources : List (String × IResourceMeta)
deriving Repr, DecidableEq

/-- First-match association-list lookup (JS object / Map read). -/
def assocLookup {α : Type} : List (String × α) → String → Option α
  | [], _ => none
  | p :: rest, k => if p.1 = k then some p.2 else assocLookup rest k

/-- JS object assignment `obj[k] = v`: replace the entry in place when
the key exists, otherwise append it. -/
def putKey {α : Type} : List (String × α) → String → α → List (String × α)
  | [], k, v => [(k, v)]
  | p :: rest, k, v => if p.1 = k then (k, v) :: rest else p :: putKey rest k v

/-- The model of `UUIDv4()`: the n-th id generated in a run, as a
string whose length determines n.  Distinct indices give distinct ids
(`uuidStr_injective`), which models the uniqueness of freshly drawn
UUIDs. -/
def uuidStr (n : Nat) : String := "uuid-" ++ String.mk (List.replicate n 'x')

/-- The `IResourceMeta` object literal built at lines 193-207. -/
def mkMeta (uuid : String) (record : ResourceRecord) (videoMeta : IVideoMeta)
    (filename : String) : IResourceMeta :=
  { id := uuid
    refId := record.id
    title := record.title
    filename := filename
    description := record.description
    contributor := some { name := record.author, link := none }
    catalog := none
    tags := none
    source := { url := videoMeta.url, title := record.title,
                startTime := record.startTime }
    language := none
    filemeta := none }

/-- Options of `downloadAndEncode` (lines 129-135). -/
structure EncodeOpts where
  url : String
  output : String
  startTime : Option String
  duration : Option String
deriving Repr, DecidableEq

/-- The ffmpeg argument list built by `downloadAndEncode`
(lines 137-147); the optional `-ss` and `-t` flags are passed exactly
when the raw value is truthy (present and non-empty). -/
def ffmpegArgs (o : EncodeOpts) : List String :=
  ["-hide_banner", "-nostdin", "-i", o.url]
  ++ (match o.startTime with
      | some t => if t.isEmpty then [] else ["-ss", t]
      | none => [])
  ++ (match o.duration with
      | some t => if t.isEmpty then [] else ["-t", t]
      | none => [])
  ++ ["-vn", "-c:a", "libmp3lame", o.output]

/-- The encode options passed at lines 185-191 for a record and its
resolved video meta. -/
def encodeOptsOf (record : ResourceRecord) (vm : IVideoMeta) : EncodeOpts :=
  { url := vm.source.url
    output := deriveFilename record
    startTime := record.startTime
    duration := record.duration }

/-- The mutable state of one `downloadAudioclip` run: the video-meta
cache, the files present in the temp directory (by filename), the
in-memory index contents, a log of provider invocations
(`getVideoMeta` calls) and of encoder invocations, and the UUID
counter. -/
structure RunState where
  cache : List (String × IVideoMeta)
  files : List String
  resources : List (String × IResourceMeta)
  indexV : Nat
  encodeCalls : List EncodeOpts
  resolveCalls : List String
  uuidCounter : Nat
deriving Repr, DecidableEq

/-- Lines 178-211: the part of the loop body following a successful
resolution.  If the derived file already exists the record is skipped;
otherwise the encoder is invoked (writing the file exactly when
`encodeWrites` says the invocation produced output — the code never
inspects the exit status) and the index entry is stored
unconditionally. -/
def handleResolved (encodeWrites : EncodeOpts → Bool) (s : RunState)
    (record : ResourceRecord) (vm : IVideoMeta) : RunState :=
  let filename := deriveFilename record
  if s.files.contains filename then s
  else
    let call := encodeOptsOf record vm
    let meta := mkMeta (uuidStr s.uuidCounter) record vm filename
    { s with
      encodeCalls := s.encodeCalls ++ [call]
      files := if encodeWrites call then s.files ++ [filename] else s.files
      resources := putKey s.resources filename meta
      uuidCounter := s.uuidCounter + 1 }

/-- Lines 167-174: `videoMetaCache.get(videoUrl) || await getVideoMeta(videoUrl)`.
On a cache hit the provider is not consulted; on a miss `getVideoMeta`
is invoked. -/
def resolveRecord (provider : String → Option ProviderInfo) (s : RunState)
    (url : String) : Option IVideoMeta :=
  match assocLookup s.cache url with
  | some vm => some vm
  | none => getVideoMeta (provider url)

/-- The state after the resolution step of one loop iteration: on a
cache miss the provider invocation is logged and, only on success, the
cache is populated (line 174 runs after the failure `continue`). -/
def postResolve (provider : String → Option ProviderInfo) (s : RunState)
    (record : ResourceRecord) : RunState :=
  match assocLookup s.cache record.videoUrl with
  | some _ => s
  | none =>
    match getVideoMeta (provider record.videoUrl) with
    | none => { s with resolveCalls := s.resolveCalls ++ [record.videoUrl] }
    | some vm =>
      { s with resolveCalls := s.resolveCalls ++ [record.videoUrl]
               cache := s.cache ++ [(record.videoUrl, vm)] }

/-- One iteration of the `for (const record of records)` loop
(lines 164-212). -/
def processRecord (provider : String → Option ProviderInfo)
    (encodeWrites : EncodeOpts → Bool) (s : RunState)
    (record : ResourceRecord) : RunState :=
  match assocLookup s.cache record.videoUrl with
  | some vm => handleResolved encodeWrites s record vm
  | none =>
    let s1 : RunState := { s with resolveCalls := s.resolveCalls ++ [record.videoUrl] }
    match getVideoMeta (provider record.videoUrl) with
    | none => s1
    | some vm =>
      handleResolved encodeWrites
        { s1 with cache := s1.cache ++ [(record.videoUrl, vm)] } record vm

/-- The whole per-record loop. -/
def runPipeline (provider : String → Option ProviderInfo)
    (encodeWrites : EncodeOpts → Bool) (records : List ResourceRecord)
    (s0 : RunState) : RunState :=
  records.foldl (processRecord provider encodeWrites) s0

/-- The state at line 163: empty cache and logs, the loaded index, the
files already present in the temp directory. -/
def initState (idx : IResourceIndex) (files0 : List String) : RunState :=
  { cache := []
    files := files0
    resources := idx.resources
    indexV := idx.v
    encodeCalls := []
    resolveCalls := []
    uuidCounter := 0 }

/-- The index as persisted at line 214. -/
def finalIndex (s : RunState) : IResourceIndex :=
  { v := s.indexV, resources := s.resources }

/-- JSON syntax tree: the content of the serialized index file.
Object fields are listed in insertion order. -/
inductive Json where
  | null : Json
  | str : String → Json
  | num : Nat → Json
  | arr : List Json → Json
  | obj : List (String × Json) → Json

/-- A field that `JSON.stringify` emits only when the value is not
`undefined`. -/
def optField (k : String) : Option Json → List (String × Json)
  | none => []
  | some j => [(k, j)]

def encodeContributor (c : Contributor) : Json :=
  Json.obj (optField "name" (c.name.map Json.str)
    ++ optField "link" (c.link.map Json.str))

def encodeSource (s : MetaSource) : Json :=
  Json.obj ([("url", Json.str s.url)]
    ++ optField "startTime" (s.startTime.map Json.str)
    ++ [("title", Json.str s.title)])

def encodeFilemeta (fm : Filemeta) : Json :=
  Json.obj (optField "md5" (fm.md5.map Json.str)
    ++ optField "size" (fm.size.map Json.num)
    ++ optField "duration" (fm.duration.map Json.num))

def encodeStrPairs (ps : List (String × String)) : List (String × Json) :=
  ps.map (fun p => (p.1, Json.str p.2))

/-- Encodes one `IResourceMeta` the way `JSON.stringify` renders it, fields in the declaration
order of the interface, `undefined` fields dropped. -/
def encodeMeta (m : IResourceMeta) : Json :=
  Json.obj ([("id", Json.str m.id), ("refId", Json.str m.refId),
             ("title", Json.str m.title), ("filename", Json.str m.filename)]
    ++ optField "description" (m.description.map Json.str)
    ++ optField "contributor" (m.contributor.map encodeContributor)
    ++ optField "catalog" (m.catalog.map Json.str)
    ++ optField "tags" (m.tags.map (fun ts => Json.arr (ts.map Json.str)))
    ++ [("source", encodeSource m.source)]
    ++ optField "language" (m.language.map (fun ps => Json.obj (encodeStrPairs ps)))
    ++ optField "filemeta" (m.filemeta.map encodeFilemeta))

/-- Encodes the whole index (line 214). -/
def encodeIndex (idx : IResourceIndex) : Json :=
  Json.obj [("v", Json.num idx.v),
            ("resources", Json.obj (idx.resources.map (fun p => (p.1, encodeMeta p.2))))]

def readStr (fields : List (String × Json)) (k : String) : Option String :=
  match assocLookup fields k with
  | some (Json.str s) => some s
  | _ => none

def readNum (fields : List (String × Json)) (k : String) : Option Nat :=
  match assocLookup fields k with
  | some (Json.num n) => some n
  | _ => none

/-- Read an optional string field: an absent field is `none`. -/
def readOptStr (fields : List (String × Json)) (k : String) : Option (Option String) :=
  match assocLookup fields k with
  | none => some none
  | some (Json.str s) => some (some s)
  | some _ => none

def readOptNum (fields : List (String × Json)) (k : String) : Option (Option Nat) :=
  match assocLookup fields k with
  | none => some none
  | some (Json.num n) => some (some n)
  | some _ => none

def decodeContributor : Json → Option Contributor
  | Json.obj fields =>
    match readOptStr fields "name", readOptStr fields "link" with
    | some n, some l => some { name := n, link := l }
    | _, _ => none
  | _ => none

def decodeSource : Json → Option MetaSource
  | Json.obj fields =>
    match readStr fields "url", readOptStr fields "startTime", readStr fields "title" with
    | some u, some st, some t => some { url := u, title := t, startTime := st }
    | _, _, _ => none
  | _ => none

def decodeFilemeta : Json → Option Filemeta
  | Json.obj fields =>
    match readOptStr fields "md5", readOptNum fields "size", readOptNum fields "duration" with
    | some m, some s, some d => some { md5 := m, size := s, duration := d }
    | _, _, _ => none
  | _ => none

def decodeStrList : List Json → Option (List String)
  | [] => some []
  | Json.str s :: rest => (decodeStrList rest).map (fun l => s :: l)
  | _ => none

def decodeStrPairs : List (String × Json) → Option (List (String × String))
  | [] => some []
  | (k, Json.str s) :: rest => (decodeStrPairs rest).map (fun l => (k, s) :: l)
  | _ => none

def readOptJson (fields : List (String × Json)) (k : String)
    (dec : Json → Option α) : Option (Option α) :=
  match assocLookup fields k with
  | none => some none
  | some j => (dec j).map some

def decodeTags : Json → Option (List String)
  | Json.arr js => decodeStrList js
  | _ => none

def decodeLanguage : Json → Option (List (String × String))
  | Json.obj fields => decodeStrPairs fields
  | _ => none

def decodeMeta : Json → Option IResourceMeta
  | Json.obj fields =>
    match readStr fields "id", readStr fields "refId", readStr fields "title",
          readStr fields "filename", readOptStr fields "description",
          readOptJson fields "contributor" decodeContributor,
          readOptStr fields "catalog" with
    | some i, some r, some t, some fn, some d, some c, some cat =>
      match readOptJson fields "tags" decodeTags,
            (assocLookup fields "source").bind decodeSource,
            readOptJson fields "language" decodeLanguage,
            readOptJson fields "filemeta" decodeFilemeta with
      | some tg, some src, some lang, some fm =>
        some { id := i, refId := r, title := t, filename := fn,
               description := d, contributor := c, catalog := cat,
               tags := tg, source := src, language := lang, filemeta := fm }
      | _, _, _, _ => none
    | _, _, _, _, _, _, _ => none
  | _ => none

def decodeResources : List (String × Json) → Option (List (String × IResourceMeta))
  | [] => some []
  | (k, j) :: rest =>
    match decodeMeta j, decodeResources rest with
    | some m, some r => some ((k, m) :: r)
    | _, _ => none

/-- Decodes a parsed index file, read back as an `IResourceIndex`. -/
def decodeIndex : Json → Option IResourceIndex
  | Json.obj fields =>
    match readNum fields "v", assocLookup fields "resources" with
    | some v, some (Json.obj rfields) =>
      match decodeResources rfields with
      | some res => some { v := v, resources := res }
      | none => none
    | _, _ => none
  | _ => none

/-- Line 214: the serialized document written to `meta.json`. -/
def persistIndex (idx : IResourceIndex) : Json := encodeIndex idx

/-- Line 162: load `meta.json` when it exists, else start from the
fresh empty index with version tag 1. -/
def loadIndex : Option Json → Option IResourceIndex
  | none => some { v := 1, resources := [] }
  | some j => decodeIndex j

/-- Occurrence count in a list of strings. -/
def countStr (u : String) : List String → Nat
  | [] => 0
  | x :: xs => (if x = u then 1 else 0) + countStr u xs

/-- The stream list of the determinism scenario in the spec. -/
def c1Streams : List StreamFormat :=
  [{ hasAudio := true, audioSampleRate := some 44100, url := "https://stream/44100" },
   { hasAudio := true, audioSampleRate := some 48000, url := "https://stream/48000" },
   { hasAudio := false, audioSampleRate := some 96000, url := "https://stream/96000" }]

/-- The 48000 Hz stream of that scenario. -/
def c1Selected : StreamFormat :=
  { hasAudio := true, audioSampleRate := some 48000, url := "https://stream/48000" }

/-- A small record used to instantiate the general theorems. -/
def wRecord : ResourceRecord := { id := "a", title := "b", videoUrl := "u" }

/-- A provider response with one audio format at 44100 Hz. -/
def wInfo : ProviderInfo :=
  { videoId := "v", video_url := "https://host/v", title := "T",
    formats := [{ hasAudio := true, audioSampleRate := some 44100, url := "su" }] }

/-- A provider that resolves exactly the URL "u". -/
def wProvider (u : String) : Option ProviderInfo :=
  if u = "u" then some wInfo else none

/-- The video meta resolved from `wInfo`. -/
def wVM : IVideoMeta :=
  { id := "v", url := "https://host/v", title := "T",
    source := { asr := 44100, url := "su" } }

/-- A provider response with two audio formats: the first without a
sample rate, the second reporting a rate of 0.  Both `maxBy` keys
coerce to 0, the tie keeps the first (rate-less) format, and the
selection check then fails although an audio-carrying stream does
report a sample rate. -/
def c3Info : ProviderInfo :=
  { videoId := "v0", video_url := "https://host/v0", title := "T0",
    formats := [{ hasAudio := true, audioSampleRate := none, url := "s1" },
                { hasAudio := true, audioSampleRate := some 0, url := "s2" }] }

/-- A second record carrying the same source URL as `wRecord`. -/
def c5RecordB : ResourceRecord := { id := "c", title := "d", videoUrl := "u" }

/-- The record of the end-to-end scenario. -/
def c6Record : ResourceRecord :=
  { id := "r1", title := "Test/Clip", videoUrl := "https://host/abc",
    startTime := some "10", duration := some "5" }

/-- The provider response of the end-to-end scenario: one audio stream
with sample rate 48000 and the fetchable stream URL. -/
def c6Info : ProviderInfo :=
  { videoId := "abc", video_url := "https://host/abc", title := "Video Title",
    formats := [{ hasAudio := true, audioSampleRate := some 48000,
                  url := "https://stream/abc.audio" }] }

def c6Provider (u : String) : Option ProviderInfo :=
  if u = "https://host/abc" then some c6Info else none

/-- The video meta resolved from `c6Info`. -/
def c6VM : IVideoMeta :=
  { id := "abc", url := "https://host/abc", title := "Video Title",
    source := { asr := 48000, url := "https://stream/abc.audio" } }

/-- The complete run of the end-to-end scenario. -/
def c6Run : RunState :=
  runPipeline c6Provider (fun _ => true) [c6Record] (initState ⟨1, []⟩ [])

/-- An index entry present before the run, for the filename derived
from `wRecord`, with no matching file on disk. -/
def c8OldMeta : IResourceMeta :=
  { id := "old", refId := "r0", title := "t", filename := "a-b.mp3",
    description := none, contributor := none, catalog := none, tags := none,
    source := { url := "x", title := "t", startTime := none },
    language := none, filemeta := none }

def c8Idx : IResourceIndex := { v := 1, resources := [("a-b.mp3", c8OldMeta)] }

/-- A second record, distinct from `wRecord`, whose title sanitizes to
the same derived filename "a-b.mp3". -/
def collRecordB : ResourceRecord := { id := "a", title := "b/", videoUrl := "u2" }

/-- A provider that resolves every URL to the same response. -/
def collProvider (_u : String) : Option ProviderInfo := some wInfo

theorem foldl_maxStep_mem (xs : List StreamFormat) :
    ∀ a : StreamFormat, xs.foldl maxStep a = a ∨ xs.foldl maxStep a ∈ xs := by
  induction xs with
  | nil => intro a; simp
  | cons y ys ih =>
    intro a
    by_cases h : formatKey a < formatKey y
    · rcases ih (maxStep a y) with h1 | h1 <;>
        simp [List.foldl_cons, maxStep, h] at h1 ⊢ <;> simp [h1]
    · rcases ih (maxStep a y) with h1 | h1 <;>
        simp [List.foldl_cons, maxStep, h] at h1 ⊢ <;> simp [h1]

theorem foldl_maxStep_ge (xs : List StreamFormat) :
    ∀ a : StreamFormat, formatKey a ≤ formatKey (xs.foldl maxStep a) := by
  induction xs with
  | nil => intro a; simp
  | cons y ys ih =>
    intro a
    have h2 : formatKey a ≤ formatKey (maxStep a y) := by
      by_cases h : formatKey a < formatKey y
      · simp [maxStep, h]; omega
      · simp [maxStep, h]
    calc formatKey a ≤ formatKey (maxStep a y) := h2
      _ ≤ formatKey ((y :: ys).foldl maxStep a) := by
          simp only [List.foldl_cons]; exact ih (maxStep a y)

theorem foldl_maxStep_all (xs : List StreamFormat) :
    ∀ (a y : StreamFormat), y ∈ xs →
      formatKey y ≤ formatKey (xs.foldl maxStep a) := by
  induction xs with
  | nil => intro a y hy; simp at hy
  | cons z zs ih =>
    intro a y hy
    simp only [List.foldl_cons]
    rcases List.mem_cons.mp hy with h | h
    · subst h
      have h2 : formatKey y ≤ formatKey (maxStep a y) := by
        by_cases h : formatKey a < formatKey y
        · simp [maxStep, h]
        · simp [maxStep, h]; omega
      exact le_trans h2 (foldl_maxStep_ge zs (maxStep a y))
    · exact ih (maxStep a z) y h

theorem selectBestFormat_spec (formats : List StreamFormat) (f : StreamFormat)
    (h : selectBestFormat formats = some f) :
    f ∈ formats ∧ f.hasAudio = true ∧
      ∀ g ∈ formats, g.hasAudio = true → formatKey g ≤ formatKey f := by
  unfold selectBestFormat lodashMaxBy at h
  rcases hfil : formats.filter (fun g => g.hasAudio) with _ | ⟨x, xs⟩
  · rw [hfil] at h; exact absurd h (by simp)
  · rw [hfil] at h
    simp only [Option.some.injEq] at h
    have hmem : f ∈ x :: xs := by
      rcases foldl_maxStep_mem xs x with h1 | h1
    -- f is the accumulator itself or drawn from the tail
      · rw [← h, h1]; exact List.mem_cons_self x xs
      · rw [← h]; exact List.mem_cons_of_mem x h1
    have hmemfil : f ∈ formats.filter (fun g => g.hasAudio) := by
      rw [hfil]; exact hmem
    have hmf := List.mem_filter.mp hmemfil
    refine ⟨hmf.1, hmf.2, ?_⟩
    intro g hg hga
    have hgfil : g ∈ formats.filter (fun k => k.hasAudio) := by
      exact List.mem_filter.mpr ⟨hg, hga⟩
    rw [hfil] at hgfil
    rcases List.mem_cons.mp hgfil with h1 | h1
    · subst h1; rw [← h]; exact foldl_maxStep_ge xs g
    · rw [← h]; exact foldl_maxStep_all xs x g h1

theorem selectBestFormat_none (formats : List StreamFormat) :
    selectBestFormat formats = none ↔
      ∀ f ∈ formats, f.hasAudio = false := by
  constructor
  · intro h f hf
    by_contra hcon
    have hfa : f.hasAudio = true := by
      cases hha : f.hasAudio
      · exact absurd hha hcon
      · rfl
    have hmem : f ∈ formats.filter (fun g => g.hasAudio) :=
      List.mem_filter.mpr ⟨hf, hfa⟩
    unfold selectBestFormat lodashMaxBy at h
    rcases hfil : formats.filter (fun g => g.hasAudio) with _ | ⟨x, xs⟩
    · rw [hfil] at hmem; simp at hmem
    · rw [hfil] at h; simp at h
  · intro hall
    have hfil : formats.filter (fun g => g.hasAudio) = [] := by
      rw [List.filter_eq_nil_iff]
      intro a ha; simp [hall a ha]
    unfold selectBestFormat lodashMaxBy
    rw [hfil]

theorem uuidStr_injective (n m : Nat) (h : uuidStr n = uuidStr m) : n = m := by
  have hlen : (uuidStr n).length = (uuidStr m).length := by rw [h]
  simp only [uuidStr, String.length_append] at hlen
  simpa using hlen

theorem decodeContributor_encode (c : Contributor) :
    decodeContributor (encodeContributor c) = some c := by
  rcases c with ⟨n, l⟩
  cases n <;> cases l <;> rfl

theorem decodeSource_encode (s : MetaSource) :
    decodeSource (encodeSource s) = some s := by
  rcases s with ⟨u, t, st⟩
  cases st <;> rfl

theorem decodeFilemeta_encode (fm : Filemeta) :
    decodeFilemeta (encodeFilemeta fm) = some fm := by
  rcases fm with ⟨m, s, d⟩
  cases m <;> cases s <;> cases d <;> rfl

theorem decodeStrList_map (ts : List String) :
    decodeStrList (ts.map Json.str) = some ts := by
  induction ts with
  | nil => rfl
  | cons t rest ih => simp [decodeStrList, ih]

theorem decodeStrPairs_map (ps : List (String × String)) :
    decodeStrPairs (encodeStrPairs ps) = some ps := by
  induction ps with
  | nil => rfl
  | cons p rest ih =>
    rcases p with ⟨k, v⟩
    simp [encodeStrPairs, decodeStrPairs] at ih ⊢
    simp [ih]

theorem decodeMeta_encode (m : IResourceMeta) :
    decodeMeta (encodeMeta m) = some m := by
  rcases m with ⟨i, r, t, fn, d, c, cat, tg, src, lang, fm⟩
  cases d <;> cases c <;> cases cat <;> cases tg <;> cases lang <;> cases fm <;>
    simp [encodeMeta, decodeMeta, optField, readStr, readOptStr, readOptJson,
          assocLookup, decodeTags, decodeLanguage, decodeContributor_encode,
          decodeSource_encode, decodeFilemeta_encode, decodeStrList_map,
          decodeStrPairs_map]

theorem decodeResources_map (res : List (String × IResourceMeta)) :
    decodeResources (res.map (fun p => (p.1, encodeMeta p.2))) = some res := by
  induction res with
  | nil => rfl
  | cons p rest ih =>
    rcases p with ⟨k, m⟩
    simp [decodeResources, decodeMeta_encode, ih]

theorem decodeIndex_encode (idx : IResourceIndex) :
    decodeIndex (encodeIndex idx) = some idx := by
  rcases idx with ⟨v, res⟩
  simp [encodeIndex, decodeIndex, readNum, assocLookup, decodeResources_map]

theorem assocLookup_putKey_same {α : Type} (l : List (String × α)) (k : String) (v : α) :
    assocLookup (putKey l k v) k = some v := by
  induction l with
  | nil => simp [putKey, assocLookup]
  | cons p rest ih =>
    by_cases h : p.1 = k
    · simp [putKey, h, assocLookup]
    · simp [putKey, h, assocLookup, ih]

theorem assocLookup_putKey_ne {α : Type} (l : List (String × α)) (k j : String) (v : α)
    (h : k ≠ j) : assocLookup (putKey l k v) j = assocLookup l j := by
  induction l with
  | nil => simp [putKey, assocLookup, h]
  | cons p rest ih =>
    by_cases h1 : p.1 = k
    · simp [putKey, h1, assocLookup, h]
    · simp [putKey, h1, assocLookup, ih]

theorem assocLookup_putKey_isSome {α : Type} (l : List (String × α)) (k j : String) (v : α)
    (h : (assocLookup l j).isSome = true) :
    (assocLookup (putKey l k v) j).isSome = true := by
  by_cases hkj : k = j
  · subst hkj; simp [assocLookup_putKey_same]
  · rw [assocLookup_putKey_ne l k j v hkj]; exact h

theorem assocLookup_append_right {α : Type} (l : List (String × α)) (p : String × α)
    (u : String) (h : assocLookup l u = none) :
    assocLookup (l ++ [p]) u = if p.1 = u then some p.2 else none := by
  induction l with
  | nil => simp [assocLookup]
  | cons q rest ih =>
    by_cases h1 : q.1 = u
    · simp [assocLookup, h1] at h
    · simp [assocLookup, h1] at h ⊢
      exact ih h

theorem countStr_append (u : String) (l1 l2 : List String) :
    countStr u (l1 ++ l2) = countStr u l1 + countStr u l2 := by
  induction l1 with
  | nil => simp [countStr]
  | cons x xs ih => simp [countStr, ih]; omega

theorem handleResolved_cache (encodeWrites : EncodeOpts → Bool) (s : RunState)
    (record : ResourceRecord) (vm : IVideoMeta) :
    (handleResolved encodeWrites s record vm).cache = s.cache ∧
      (handleResolved encodeWrites s record vm).resolveCalls = s.resolveCalls ∧
      (handleResolved encodeWrites s record vm).indexV = s.indexV := by
  unfold handleResolved
  by_cases h : deriveFilename record ∈ s.files
  · simp [h]
  · simp [h]

theorem handleResolved_skip (encodeWrites : EncodeOpts → Bool) (s : RunState)
    (record : ResourceRecord) (vm : IVideoMeta)
    (h : s.files.contains (deriveFilename record) = true) :
    handleResolved encodeWrites s record vm = s := by
  have hm : deriveFilename record ∈ s.files := by simpa using h
  unfold handleResolved
  simp [hm]

theorem handleResolved_encode (encodeWrites : EncodeOpts → Bool) (s : RunState)
    (record : ResourceRecord) (vm : IVideoMeta)
    (h : s.files.contains (deriveFilename record) = false) :
    handleResolved encodeWrites s record vm =
      { s with
        encodeCalls := s.encodeCalls ++ [encodeOptsOf record vm]
        files := if encodeWrites (encodeOptsOf record vm)
                 then s.files ++ [deriveFilename record] else s.files
        resources := putKey s.resources (deriveFilename record)
          (mkMeta (uuidStr s.uuidCounter) record vm (deriveFilename record))
        uuidCounter := s.uuidCounter + 1 } := by
  have hm : deriveFilename record ∉ s.files := by simpa using h
  unfold handleResolved
  simp [hm]

theorem postResolve_parts (provider : String → Option ProviderInfo) (s : RunState)
    (record : ResourceRecord) :
    (postResolve provider s record).files = s.files ∧
      (postResolve provider s record).resources = s.resources ∧
      (postResolve provider s record).encodeCalls = s.encodeCalls ∧
      (postResolve provider s record).uuidCounter = s.uuidCounter ∧
      (postResolve provider s record).indexV = s.indexV := by
  unfold postResolve
  rcases assocLookup s.cache record.videoUrl with _ | vm
  · rcases getVideoMeta (provider record.videoUrl) with _ | vm2 <;> simp
  · simp

theorem processRecord_eq (provider : String → Option ProviderInfo)
    (encodeWrites : EncodeOpts → Bool) (s : RunState) (record : ResourceRecord) :
    processRecord provider encodeWrites s record =
      match resolveRecord provider s record.videoUrl with
      | none => postResolve provider s record
      | some vm => handleResolved encodeWrites (postResolve provider s record) record vm := by
  unfold processRecord resolveRecord postResolve
  rcases h : assocLookup s.cache record.videoUrl with _ | vm
  · rcases h2 : getVideoMeta (provider record.videoUrl) with _ | vm2 <;> simp
  · simp

theorem assocLookup_append_some {α : Type} (l l2 : List (String × α)) (u : String)
    (x : α) (h : assocLookup l u = some x) : assocLookup (l ++ l2) u = some x := by
  induction l with
  | nil => simp [assocLookup] at h
  | cons q rest ih =>
    by_cases h1 : q.1 = u
    · simp [assocLookup, h1] at h ⊢; exact h
    · simp [assocLookup, h1] at h ⊢; exact ih h

/-- A record that reaches the encode step (successful resolution, no
file at the derived path): the encoder is invoked once with the options
of lines 185-191, the index entry is written unconditionally with a
fresh id, the counter advances, and the file appears exactly when the
encoder produced it. -/
theorem processRecord_reach (provider : String → Option ProviderInfo)
    (encodeWrites : EncodeOpts → Bool) (s : RunState) (record : ResourceRecord)
    (vm : IVideoMeta)
    (hres : resolveRecord provider s record.videoUrl = some vm)
    (hfile : s.files.contains (deriveFilename record) = false) :
    (processRecord provider encodeWrites s record).resources =
        putKey s.resources (deriveFilename record)
          (mkMeta (uuidStr s.uuidCounter) record vm (deriveFilename record)) ∧
      (processRecord provider encodeWrites s record).encodeCalls =
        s.encodeCalls ++ [encodeOptsOf record vm] ∧
      (processRecord provider encodeWrites s record).uuidCounter = s.uuidCounter + 1 ∧
      (processRecord provider encodeWrites s record).files =
        (if encodeWrites (encodeOptsOf record vm)
         then s.files ++ [deriveFilename record] else s.files) := by
  obtain ⟨hf2, hr2, he2, hu2, hv2⟩ := postResolve_parts provider s record
  have hpr : processRecord provider encodeWrites s record =
      handleResolved encodeWrites (postResolve provider s record) record vm := by
    rw [processRecord_eq, hres]
  rw [hpr]
  rw [handleResolved_encode _ _ _ _ (by rw [hf2]; exact hfile)]
  simp [hf2, hr2, he2, hu2]

/-- A record whose resolution fails changes nothing but the log of
provider invocations. -/
theorem processRecord_resolutionFailed (provider : String → Option ProviderInfo)
    (encodeWrites : EncodeOpts → Bool) (s : RunState) (record : ResourceRecord)
    (hmiss : assocLookup s.cache record.videoUrl = none)
    (hfail : getVideoMeta (provider record.videoUrl) = none) :
    processRecord provider encodeWrites s record =
      { s with resolveCalls := s.resolveCalls ++ [record.videoUrl] } := by
  unfold processRecord
  rw [hmiss, hfail]

/-- Step preservation for the at-most-once cache property: if the
provider can resolve `u`, then after one loop iteration the number of
provider invocations for `u` is still at most 1, and still 0 while `u`
is not cached. -/
theorem cacheInv_step (provider : String → Option ProviderInfo)
    (encodeWrites : EncodeOpts → Bool) (u : String)
    (hp : getVideoMeta (provider u) ≠ none) (s : RunState) (record : ResourceRecord)
    (h1 : countStr u s.resolveCalls ≤ 1)
    (h2 : assocLookup s.cache u = none → countStr u s.resolveCalls = 0) :
    countStr u (processRecord provider encodeWrites s record).resolveCalls ≤ 1 ∧
      (assocLookup (processRecord provider encodeWrites s record).cache u = none →
        countStr u (processRecord provider encodeWrites s record).resolveCalls = 0) := by
  unfold processRecord
  rcases hc : assocLookup s.cache record.videoUrl with _ | vm
  · rcases hg : getVideoMeta (provider record.videoUrl) with _ | vm2
    · -- resolution failed: the url cannot be u (the provider resolves u)
      have hne : record.videoUrl ≠ u := by
        intro he; rw [he] at hg; exact hp hg
      simp only [countStr_append]
      constructor
      · have : countStr u [record.videoUrl] = 0 := by simp [countStr, hne]
        omega
      · intro hnone
        have : countStr u [record.videoUrl] = 0 := by simp [countStr, hne]
        have h0 := h2 hnone
        omega
    · -- resolution succeeded on a cache miss: log and cache the url
      obtain ⟨hcache, hcalls, _⟩ := handleResolved_cache encodeWrites
        { s with resolveCalls := s.resolveCalls ++ [record.videoUrl],
                 cache := s.cache ++ [(record.videoUrl, vm2)] } record vm2
      rw [hcache, hcalls]
      by_cases he : record.videoUrl = u
      · subst he
        have h0 := h2 hc
        have hl : assocLookup (s.cache ++ [(record.videoUrl, vm2)]) record.videoUrl =
            some vm2 := by
          rw [assocLookup_append_right s.cache _ _ hc]; simp
        constructor
        · simp [countStr_append, countStr, h0]
        · intro hnone; rw [hl] at hnone; exact absurd hnone (by simp)
      · have hcount : countStr u (s.resolveCalls ++ [record.videoUrl]) =
            countStr u s.resolveCalls := by
          simp [countStr_append, countStr, he]
        rw [hcount]
        refine ⟨h1, ?_⟩
        intro hnone
        apply h2
        rcases hold : assocLookup s.cache u with _ | x
        · rfl
        · rw [assocLookup_append_some s.cache _ u x hold] at hnone
          exact absurd hnone (by simp)
  · -- cache hit: neither the log nor the cache changes
    obtain ⟨hcache, hcalls, _⟩ := handleResolved_cache encodeWrites s record vm
    rw [hcache, hcalls]
    exact ⟨h1, h2⟩

theorem cacheInv_run (provider : String → Option ProviderInfo)
    (encodeWrites : EncodeOpts → Bool) (u : String)
    (hp : getVideoMeta (provider u) ≠ none) (records : List ResourceRecord) :
    ∀ s : RunState, countStr u s.resolveCalls ≤ 1 →
      (assocLookup s.cache u = none → countStr u s.resolveCalls = 0) →
      countStr u (runPipeline provider encodeWrites records s).resolveCalls ≤ 1 := by
  induction records with
  | nil => intro s h1 h2; exact h1
  | cons r rest ih =>
    intro s h1 h2
    obtain ⟨h1s, h2s⟩ := cacheInv_step provider encodeWrites u hp s r h1 h2
    exact ih (processRecord provider encodeWrites s r) h1s h2s

/-- Step preservation for index entries backed by an existing file:
the entry survives the iteration untouched and the file stays. -/
theorem entry_preserved_step (provider : String → Option ProviderInfo)
    (encodeWrites : EncodeOpts → Bool) (s : RunState) (record : ResourceRecord)
    (F : String) (m : IResourceMeta)
    (hm : assocLookup s.resources F = some m) (hf : F ∈ s.files) :
    assocLookup (processRecord provider encodeWrites s record).resources F = some m ∧
      F ∈ (processRecord provider encodeWrites s record).files := by
  obtain ⟨hf2, hr2, he2, hu2, hv2⟩ := postResolve_parts provider s record
  rcases hres : resolveRecord provider s record.videoUrl with _ | vm
  · have hpr : processRecord provider encodeWrites s record =
        postResolve provider s record := by
      rw [processRecord_eq, hres]
    rw [hpr, hf2, hr2]; exact ⟨hm, hf⟩
  · have hpr : processRecord provider encodeWrites s record =
        handleResolved encodeWrites (postResolve provider s record) record vm := by
      rw [processRecord_eq, hres]
    rw [hpr]
    by_cases hex : (postResolve provider s record).files.contains (deriveFilename record) = true
    · rw [handleResolved_skip _ _ _ _ hex, hf2, hr2]
      exact ⟨hm, hf⟩
    · have hex2 : (postResolve provider s record).files.contains (deriveFilename record) = false := by
        cases h : (postResolve provider s record).files.contains (deriveFilename record)
        · rfl
        · exact absurd h hex
      rw [handleResolved_encode _ _ _ _ hex2]
      have hne : deriveFilename record ≠ F := by
        intro he
        have hmem : deriveFilename record ∈ (postResolve provider s record).files := by
          rw [hf2, he]; exact hf
        have : (postResolve provider s record).files.contains (deriveFilename record) = true := by
          simpa using hmem
        rw [hex2] at this
        exact absurd this (by simp)
      constructor
      · simp only [hr2]
        rw [assocLookup_putKey_ne _ _ _ _ hne]
        exact hm
      · simp only [hf2]
        by_cases hw : encodeWrites (encodeOptsOf record vm) = true
        · simp [hw, hf]
        · simp [hw, hf]

theorem entry_preserved_run (provider : String → Option ProviderInfo)
    (encodeWrites : EncodeOpts → Bool) (records : List ResourceRecord)
    (F : String) (m : IResourceMeta) :
    ∀ s : RunState, assocLookup s.resources F = some m → F ∈ s.files →
      assocLookup (runPipeline provider encodeWrites records s).resources F = some m := by
  induction records with
  | nil => intro s hm hf; exact hm
  | cons r rest ih =>
    intro s hm hf
    obtain ⟨hm2, hf2⟩ := entry_preserved_step provider encodeWrites s r F m hm hf
    exact ih (processRecord provider encodeWrites s r) hm2 hf2

/-- Step preservation for mere presence of an index entry: no iteration
ever deletes an entry. -/
theorem entry_isSome_step (provider : String → Option ProviderInfo)
    (encodeWrites : EncodeOpts → Bool) (s : RunState) (record : ResourceRecord)
    (F : String) (h : (assocLookup s.resources F).isSome = true) :
    (assocLookup (processRecord provider encodeWrites s record).resources F).isSome = true := by
  obtain ⟨hf2, hr2, he2, hu2, hv2⟩ := postResolve_parts provider s record
  rcases hres : resolveRecord provider s record.videoUrl with _ | vm
  · have hpr : processRecord provider encodeWrites s record =
        postResolve provider s record := by
      rw [processRecord_eq, hres]
    rw [hpr, hr2]; exact h
  · have hpr : processRecord provider encodeWrites s record =
        handleResolved encodeWrites (postResolve provider s record) record vm := by
      rw [processRecord_eq, hres]
    rw [hpr]
    by_cases hex : (postResolve provider s record).files.contains (deriveFilename record) = true
    · rw [handleResolved_skip _ _ _ _ hex, hr2]; exact h
    · have hex2 : (postResolve provider s record).files.contains (deriveFilename record) = false := by
        cases h2 : (postResolve provider s record).files.contains (deriveFilename record)
        · rfl
        · exact absurd h2 hex
      rw [handleResolved_encode _ _ _ _ hex2]
      simp only [hr2]
      exact assocLookup_putKey_isSome _ _ _ _ h

theorem entry_isSome_run (provider : String → Option ProviderInfo)
    (encodeWrites : EncodeOpts → Bool) (records : List ResourceRecord) (F : String) :
    ∀ s : RunState, (assocLookup s.resources F).isSome = true →
      (assocLookup (runPipeline provider encodeWrites records s).resources F).isSome = true := by
  induction records with
  | nil => intro s h; exact h
  | cons r rest ih =>
    intro s h
    exact ih (processRecord provider encodeWrites s r)
      (entry_isSome_step provider encodeWrites s r F h)

/-- C1: stream resolution selects, among exactly the streams with
`hasAudio` true, one carrying the numerically highest audio sample
rate (a missing rate counting as 0, the first maximal stream on ties);
in particular on the list 44100/48000/no-audio-96000 it selects the
48000 Hz stream. -/
theorem claim_C1_best_audio_stream_selected :
    (∀ (formats : List StreamFormat) (f : StreamFormat),
        selectBestFormat formats = some f →
          f ∈ formats ∧ f.hasAudio = true ∧
            ∀ g ∈ formats, g.hasAudio = true → formatKey g ≤ formatKey f) ∧
      selectBestFormat c1Streams = some c1Selected := by
  constructor
  · exact fun formats f h => selectBestFormat_spec formats f h
  · decide

/-- Witness for C1 at the concrete stream list of the spec scenario. -/
theorem claim_C1_witness :
    c1Selected ∈ c1Streams ∧ c1Selected.hasAudio = true ∧
      ∀ g ∈ c1Streams, g.hasAudio = true → formatKey g ≤ formatKey c1Selected :=
  claim_C1_best_audio_stream_selected.1 c1Streams c1Selected (by decide)

/-- C2: every record that reaches the encode step (resolution
succeeded, no file at the derived path) gets exactly one index entry,
with a freshly generated unique id and `refId` equal to the record id,
and the resulting index does not depend on whether the encoder
invocation succeeded or failed (`encodeWrites` is arbitrary and absent
from the description of the new index). -/
theorem claim_C2_index_insert_regardless_of_encoder
    (provider : String → Option ProviderInfo) (encodeWrites : EncodeOpts → Bool)
    (s : RunState) (record : ResourceRecord) (vm : IVideoMeta)
    (hres : resolveRecord provider s record.videoUrl = some vm)
    (hfile : s.files.contains (deriveFilename record) = false) :
    (processRecord provider encodeWrites s record).resources =
        putKey s.resources (deriveFilename record)
          (mkMeta (uuidStr s.uuidCounter) record vm (deriveFilename record)) ∧
      (mkMeta (uuidStr s.uuidCounter) record vm (deriveFilename record)).refId = record.id ∧
      (mkMeta (uuidStr s.uuidCounter) record vm (deriveFilename record)).id =
        uuidStr s.uuidCounter ∧
      (processRecord provider encodeWrites s record).uuidCounter = s.uuidCounter + 1 ∧
      (∀ n m : Nat, uuidStr n = uuidStr m → n = m) := by
  obtain ⟨h1, h2, h3, h4⟩ :=
    processRecord_reach provider encodeWrites s record vm hres hfile
  exact ⟨h1, rfl, rfl, h3, uuidStr_injective⟩

/-- Witness for C2: a concrete record reaching the encode step under a
failing encoder still yields the index insertion. -/
theorem claim_C2_witness :
    (processRecord wProvider (fun _ => false) (initState ⟨1, []⟩ []) wRecord).resources =
      putKey [] (deriveFilename wRecord)
        (mkMeta (uuidStr 0) wRecord wVM (deriveFilename wRecord)) :=
  (claim_C2_index_insert_regardless_of_encoder wProvider (fun _ => false)
    (initState ⟨1, []⟩ []) wRecord wVM (by decide) (by decide)).1

/-- Counterexample to C3 as stated: on the response `c3Info` the
lodash `maxBy` tie keeps the rate-less first format and resolution
fails (the `no_format_found` throw at line 109), although not every
audio-carrying stream lacks a reported sample rate — the second one
reports 0 — so the "fails exactly when" characterization of the claim
is false at this input. -/
theorem claim_C3_counterexample :
    getVideoMeta (some c3Info) = none ∧
      ¬ ((∀ f ∈ c3Info.formats, f.hasAudio = false) ∨
          (∀ f ∈ c3Info.formats, f.hasAudio = true → f.audioSampleRate = none)) := by
  decide

/-- C3 amended: resolution fails exactly when the URL is not parseable
(the `none` response), no returned stream carries audio, or the stream
actually selected — the first audio-carrying stream of maximal coerced
sample rate, a missing rate counting as 0 — lacks a reported sample
rate; when no stream reports a rate of 0 Hz this coincides with the
original wording (every audio-carrying stream lacks a reported rate).
A record whose resolution fails only appends to the log of provider
invocations — the index, the files and the encoder log are untouched
and the loop continues. -/
theorem claim_C3_amended_failure_characterization :
    (∀ info : ProviderInfo,
        getVideoMeta (some info) = none ↔
          (∀ f ∈ info.formats, f.hasAudio = false) ∨
            (∃ f, selectBestFormat info.formats = some f ∧ f.audioSampleRate = none)) ∧
      (∀ info : ProviderInfo,
          (∀ f ∈ info.formats, f.audioSampleRate ≠ some 0) →
          (getVideoMeta (some info) = none ↔
            (∀ f ∈ info.formats, f.hasAudio = false) ∨
              (∀ f ∈ info.formats, f.hasAudio = true → f.audioSampleRate = none))) ∧
      getVideoMeta none = none ∧
      (∀ (provider : String → Option ProviderInfo) (encodeWrites : EncodeOpts → Bool)
          (s : RunState) (record : ResourceRecord),
          assocLookup s.cache record.videoUrl = none →
          getVideoMeta (provider record.videoUrl) = none →
          processRecord provider encodeWrites s record =
            { s with resolveCalls := s.resolveCalls ++ [record.videoUrl] }) := by
  refine ⟨?_, ?_, rfl, ?_⟩
  · intro info
    rcases hsel : selectBestFormat info.formats with _ | f
    · have hnone : getVideoMeta (some info) = none := by
        simp only [getVideoMeta]; rw [hsel]
      simp only [hnone, true_iff]
      exact Or.inl ((selectBestFormat_none info.formats).mp hsel)
    · obtain ⟨hmem, haud, hmax⟩ := selectBestFormat_spec info.formats f hsel
      rcases hasr : f.audioSampleRate with _ | n
      · have hnone : getVideoMeta (some info) = none := by
          simp only [getVideoMeta, hsel, hasr]
        simp only [hnone, true_iff]
        exact Or.inr ⟨f, rfl, hasr⟩
      · have hsome : getVideoMeta (some info) =
            some { id := info.videoId, url := info.video_url, title := info.title,
                   source := { asr := n, url := f.url } } := by
          simp only [getVideoMeta, hsel, hasr]
        constructor
        · intro h; rw [hsome] at h; exact absurd h (by simp)
        · rintro (hna | ⟨g, hg, hgasr⟩)
          · exact absurd haud (by simp [hna f hmem])
          · injection hg with hgf
            rw [← hgf] at hgasr
            rw [hasr] at hgasr
            exact absurd hgasr (by simp)
  · intro info hpos
    rcases hsel : selectBestFormat info.formats with _ | f
    · have hna := (selectBestFormat_none info.formats).mp hsel
      have hnone : getVideoMeta (some info) = none := by
        simp only [getVideoMeta]; rw [hsel]
      simp only [hnone, true_iff]
      exact Or.inl hna
    · obtain ⟨hmem, haud, hmax⟩ := selectBestFormat_spec info.formats f hsel
      rcases hasr : f.audioSampleRate with _ | n
      · have hnone : getVideoMeta (some info) = none := by
          simp only [getVideoMeta, hsel, hasr]
        simp only [hnone, true_iff]
        refine Or.inr ?_
        intro g hg hga
        rcases hg2 : g.audioSampleRate with _ | m
        · rfl
        · exfalso
          have hk := hmax g hg hga
          have hm0 : m ≠ 0 := by
            intro h0; rw [h0] at hg2; exact hpos g hg hg2
          have hkg : formatKey g = m := by simp [formatKey, hg2]
          have hkf : formatKey f = 0 := by simp [formatKey, hasr]
          omega
      · have hsome : getVideoMeta (some info) =
            some { id := info.videoId, url := info.video_url, title := info.title,
                   source := { asr := n, url := f.url } } := by
          simp only [getVideoMeta, hsel, hasr]
        constructor
        · intro h; rw [hsome] at h; exact absurd h (by simp)
        · rintro (hna | hall)
          · exact absurd haud (by simp [hna f hmem])
          · have := hall f hmem haud
            rw [hasr] at this
            exact absurd this (by simp)
  · intro provider encodeWrites s record hmiss hfail
    exact processRecord_resolutionFailed provider encodeWrites s record hmiss hfail

/-- Witness for amended C3 at concrete responses and a concrete
failing record. -/
theorem claim_C3_witness :
    (getVideoMeta (some c3Info) = none ↔
      (∀ f ∈ c3Info.formats, f.hasAudio = false) ∨
        (∃ f, selectBestFormat c3Info.formats = some f ∧ f.audioSampleRate = none)) ∧
      (getVideoMeta (some wInfo) = none ↔
        (∀ f ∈ wInfo.formats, f.hasAudio = false) ∨
          (∀ f ∈ wInfo.formats, f.hasAudio = true → f.audioSampleRate = none)) ∧
      processRecord (fun _ => none) (fun _ => false) (initState ⟨1, []⟩ []) wRecord =
        { initState ⟨1, []⟩ [] with resolveCalls := ["u"] } :=
  ⟨claim_C3_amended_failure_characterization.1 c3Info,
   claim_C3_amended_failure_characterization.2.1 wInfo (by decide),
   claim_C3_amended_failure_characterization.2.2.2 (fun _ => none) (fun _ => false)
     (initState ⟨1, []⟩ []) wRecord (by decide) (by decide)⟩

theorem processRecord_resolveCalls_miss (provider : String → Option ProviderInfo)
    (encodeWrites : EncodeOpts → Bool) (s : RunState) (record : ResourceRecord)
    (hmiss : assocLookup s.cache record.videoUrl = none) :
    (processRecord provider encodeWrites s record).resolveCalls =
      s.resolveCalls ++ [record.videoUrl] := by
  unfold processRecord
  rcases hg : getVideoMeta (provider record.videoUrl) with _ | vm
  · simp only [hmiss, hg]
  · simp only [hmiss, hg]
    exact (handleResolved_cache _ _ _ _).2.1

/-- Counterexample to C4 as stated: a record whose derived file
already exists on disk still triggers a stream resolution (the
existence check at line 180 runs after the resolution at line 168), so
the log of provider invocations is not empty. -/
theorem claim_C4_counterexample :
    (initState ⟨1, []⟩ ["a-b.mp3"]).files.contains (deriveFilename wRecord) = true ∧
      (runPipeline wProvider (fun _ => true) [wRecord]
          (initState ⟨1, []⟩ ["a-b.mp3"])).resolveCalls ≠ [] := by
  decide

/-- C4 amended: a record whose derived file already exists is skipped
after resolution — no encoder invocation, no new file, no index
change, no id consumed — but stream resolution is still performed
first: on a cache miss the provider is always invoked, file present or
not. -/
theorem claim_C4_amended_skip_after_resolution :
    (∀ (provider : String → Option ProviderInfo) (encodeWrites : EncodeOpts → Bool)
        (s : RunState) (record : ResourceRecord) (vm : IVideoMeta),
        resolveRecord provider s record.videoUrl = some vm →
        s.files.contains (deriveFilename record) = true →
        (processRecord provider encodeWrites s record).files = s.files ∧
          (processRecord provider encodeWrites s record).resources = s.resources ∧
          (processRecord provider encodeWrites s record).encodeCalls = s.encodeCalls ∧
          (processRecord provider encodeWrites s record).uuidCounter = s.uuidCounter) ∧
      (∀ (provider : String → Option ProviderInfo) (encodeWrites : EncodeOpts → Bool)
          (s : RunState) (record : ResourceRecord),
          assocLookup s.cache record.videoUrl = none →
          (processRecord provider encodeWrites s record).resolveCalls =
            s.resolveCalls ++ [record.videoUrl]) := by
  constructor
  · intro provider encodeWrites s record vm hres hfile
    obtain ⟨hf2, hr2, he2, hu2, hv2⟩ := postResolve_parts provider s record
    have hpr : processRecord provider encodeWrites s record =
        handleResolved encodeWrites (postResolve provider s record) record vm := by
      rw [processRecord_eq, hres]
    rw [hpr, handleResolved_skip _ _ _ _ (by rw [hf2]; exact hfile)]
    exact ⟨hf2, hr2, he2, hu2⟩
  · intro provider encodeWrites s record hmiss
    exact processRecord_resolveCalls_miss provider encodeWrites s record hmiss

/-- Witness for amended C4: a record with an existing file leaves the
state unchanged apart from the resolution log. -/
theorem claim_C4_witness :
    ((processRecord wProvider (fun _ => true) (initState ⟨1, []⟩ ["a-b.mp3"]) wRecord).files =
        (initState ⟨1, []⟩ ["a-b.mp3"]).files ∧
      (processRecord wProvider (fun _ => true) (initState ⟨1, []⟩ ["a-b.mp3"]) wRecord).resources =
        (initState ⟨1, []⟩ ["a-b.mp3"]).resources ∧
      (processRecord wProvider (fun _ => true) (initState ⟨1, []⟩ ["a-b.mp3"]) wRecord).encodeCalls =
        (initState ⟨1, []⟩ ["a-b.mp3"]).encodeCalls ∧
      (processRecord wProvider (fun _ => true) (initState ⟨1, []⟩ ["a-b.mp3"]) wRecord).uuidCounter =
        (initState ⟨1, []⟩ ["a-b.mp3"]).uuidCounter) ∧
    (processRecord wProvider (fun _ => true) (initState ⟨1, []⟩ ["a-b.mp3"]) wRecord).resolveCalls = ["u"] :=
  ⟨claim_C4_amended_skip_after_resolution.1 wProvider (fun _ => true)
      (initState ⟨1, []⟩ ["a-b.mp3"]) wRecord wVM (by decide) (by decide),
    claim_C4_amended_skip_after_resolution.2 wProvider (fun _ => true)
      (initState ⟨1, []⟩ ["a-b.mp3"]) wRecord (by decide)⟩

/-- Counterexample to C5 as stated: with a provider that fails on "u",
two records carrying "u" cause two provider invocations — the failure
is not cached (line 174 runs after the failure `continue` at line 171),
so the failed URL is retried for the next record. -/
theorem claim_C5_counterexample :
    countStr "u" (runPipeline (fun _ => none) (fun _ => true) [wRecord, c5RecordB]
        (initState ⟨1, []⟩ [])).resolveCalls = 2 ∧
      ¬ countStr "u" (runPipeline (fun _ => none) (fun _ => true) [wRecord, c5RecordB]
          (initState ⟨1, []⟩ [])).resolveCalls ≤ 1 := by
  decide

/-- C5 amended: for every source URL that the provider can resolve,
the provider is invoked at most once per run no matter how many
records carry that URL; for a URL whose resolution fails, the failure
is not cached and the provider is invoked again for each further
record with that URL. -/
theorem claim_C5_amended_cache_property
    (provider : String → Option ProviderInfo) (encodeWrites : EncodeOpts → Bool)
    (records : List ResourceRecord) (idx : IResourceIndex) (files0 : List String)
    (u : String) (hp : getVideoMeta (provider u) ≠ none) :
    countStr u (runPipeline provider encodeWrites records
        (initState idx files0)).resolveCalls ≤ 1 := by
  apply cacheInv_run provider encodeWrites u hp records (initState idx files0)
  · simp [countStr, initState]
  · intro _; simp [countStr, initState]

/-- Witness for amended C5: two records with the resolvable URL "u"
yield at most one provider invocation for "u". -/
theorem claim_C5_witness :
    countStr "u" (runPipeline wProvider (fun _ => true) [wRecord, c5RecordB]
        (initState ⟨1, []⟩ [])).resolveCalls ≤ 1 :=
  claim_C5_amended_cache_property wProvider (fun _ => true) [wRecord, c5RecordB]
    ⟨1, []⟩ [] "u" (by decide)

/-- C6: the end-to-end scenario — the encoder is invoked once on the
resolved stream URL with a 10 second start offset (`-ss 10`), a
5 second duration (`-t 5`), video disabled (`-vn`) and the fixed audio
codec (`-c:a libmp3lame`); the written file is the sanitized
"r1-Test/Clip.mp3" with the slash removed; and exactly one index entry
is added, keyed by that filename, with refId "r1". -/
theorem claim_C6_end_to_end :
    deriveFilename c6Record = "r1-TestClip.mp3" ∧
      c6Run.encodeCalls = [{ url := "https://stream/abc.audio",
                             output := "r1-TestClip.mp3",
                             startTime := some "10", duration := some "5" }] ∧
      ffmpegArgs { url := "https://stream/abc.audio", output := "r1-TestClip.mp3",
                   startTime := some "10", duration := some "5" } =
        ["-hide_banner", "-nostdin", "-i", "https://stream/abc.audio",
         "-ss", "10", "-t", "5", "-vn", "-c:a", "libmp3lame", "r1-TestClip.mp3"] ∧
      c6Run.files = ["r1-TestClip.mp3"] ∧
      c6Run.resources =
        [("r1-TestClip.mp3", mkMeta (uuidStr 0) c6Record c6VM "r1-TestClip.mp3")] ∧
      (mkMeta (uuidStr 0) c6Record c6VM "r1-TestClip.mp3").refId = "r1" := by
  decide

/-- C7: persisting any index and loading the result reproduces the
identical index (same filename-keyed mapping, same version tag), and
loading with no index file present yields the fresh empty index with
version 1. -/
theorem claim_C7_index_round_trip :
    (∀ idx : IResourceIndex, loadIndex (some (persistIndex idx)) = some idx) ∧
      loadIndex none = some { v := 1, resources := [] } :=
  ⟨fun idx => decodeIndex_encode idx, rfl⟩

/-- Counterexample to C8 as stated: the skip decision consults only
the filesystem (line 180), so a record whose filename has a loaded
index entry but no file on disk IS re-downloaded — the encoder log of
the run is not empty. -/
theorem claim_C8_counterexample :
    (assocLookup c8Idx.resources (deriveFilename wRecord)).isSome = true ∧
      (initState c8Idx []).files = [] ∧
      (runPipeline wProvider (fun _ => true) [wRecord]
          (initState c8Idx [])).encodeCalls ≠ [] := by
  decide

/-- C8 amended: a record whose derived filename has an index entry but
whose file is missing from disk is processed like any fresh record:
the encoder is invoked for it and the index entry is replaced by
freshly built metadata. -/
theorem claim_C8_amended_redownload_on_missing_file
    (provider : String → Option ProviderInfo) (encodeWrites : EncodeOpts → Bool)
    (s : RunState) (record : ResourceRecord) (vm : IVideoMeta)
    (hres : resolveRecord provider s record.videoUrl = some vm)
    (hfile : s.files.contains (deriveFilename record) = false)
    (_hentry : (assocLookup s.resources (deriveFilename record)).isSome = true) :
    (processRecord provider encodeWrites s record).encodeCalls =
        s.encodeCalls ++ [encodeOptsOf record vm] ∧
      assocLookup (processRecord provider encodeWrites s record).resources
          (deriveFilename record) =
        some (mkMeta (uuidStr s.uuidCounter) record vm (deriveFilename record)) := by
  obtain ⟨h1, h2, h3, h4⟩ :=
    processRecord_reach provider encodeWrites s record vm hres hfile
  refine ⟨h2, ?_⟩
  rw [h1]
  exact assocLookup_putKey_same _ _ _

/-- Witness for amended C8 at the concrete stale-entry state. -/
theorem claim_C8_witness :
    (processRecord wProvider (fun _ => true) (initState c8Idx []) wRecord).encodeCalls =
        [encodeOptsOf wRecord wVM] ∧
      assocLookup (processRecord wProvider (fun _ => true)
          (initState c8Idx []) wRecord).resources (deriveFilename wRecord) =
        some (mkMeta (uuidStr 0) wRecord wVM (deriveFilename wRecord)) :=
  claim_C8_amended_redownload_on_missing_file wProvider (fun _ => true)
    (initState c8Idx []) wRecord wVM (by decide) (by decide) (by decide)

/-- Counterexample to C9 as stated: with a loaded entry for
"a-b.mp3" and no file on disk, the run replaces that entry by a
different `IResourceMeta` before the index is persisted. -/
theorem claim_C9_counterexample :
    assocLookup (initState c8Idx []).resources "a-b.mp3" = some c8OldMeta ∧
      (assocLookup (runPipeline wProvider (fun _ => true) [wRecord]
          (initState c8Idx [])).resources "a-b.mp3").isSome = true ∧
      assocLookup (runPipeline wProvider (fun _ => true) [wRecord]
          (initState c8Idx [])).resources "a-b.mp3" ≠ some c8OldMeta := by
  decide

/-- C9 amended: index entries are never deleted, and an entry whose
file exists on disk is never replaced for the rest of the run; in the
filename-collision scenario, where the first encode writes the file,
the second record mapping to the same filename is skipped and the
index retains only the metadata of the first record. -/
theorem claim_C9_amended_append_only :
    (∀ (provider : String → Option ProviderInfo) (encodeWrites : EncodeOpts → Bool)
        (records : List ResourceRecord) (s : RunState) (F : String) (m : IResourceMeta),
        assocLookup s.resources F = some m → F ∈ s.files →
        assocLookup (runPipeline provider encodeWrites records s).resources F = some m) ∧
      (∀ (provider : String → Option ProviderInfo) (encodeWrites : EncodeOpts → Bool)
          (records : List ResourceRecord) (s : RunState) (F : String),
          (assocLookup s.resources F).isSome = true →
          (assocLookup (runPipeline provider encodeWrites records s).resources F).isSome = true) ∧
      (runPipeline collProvider (fun _ => true) [wRecord, collRecordB]
          (initState ⟨1, []⟩ [])).resources =
        [("a-b.mp3", mkMeta (uuidStr 0) wRecord wVM "a-b.mp3")] ∧
      (runPipeline collProvider (fun _ => true) [wRecord, collRecordB]
          (initState ⟨1, []⟩ [])).encodeCalls.length = 1 := by
  refine ⟨?_, ?_, by decide, by decide⟩
  · intro provider encodeWrites records s F m hm hf
    exact entry_preserved_run provider encodeWrites records F m s hm hf
  · intro provider encodeWrites records s F h
    exact entry_isSome_run provider encodeWrites records F s h

/-- Witness for amended C9: an entry whose file exists survives a run
unchanged. -/
theorem claim_C9_witness :
    assocLookup (runPipeline wProvider (fun _ => true) [wRecord]
        (initState c8Idx ["a-b.mp3"])).resources "a-b.mp3" = some c8OldMeta :=
  claim_C9_amended_append_only.1 wProvider (fun _ => true) [wRecord]
    (initState c8Idx ["a-b.mp3"]) "a-b.mp3" c8OldMeta (by decide) (by decide)

/-- C10: every index entry the pipeline creates copies `source.title`
and the raw `source.startTime` verbatim from the input record (not
from the resolved video, not parsed), sets `source.url` to the
canonical URL of the resolved video (`video_url` of the provider
response), always sets `contributor` with `name` equal to the record
author (also when the author is absent), and never sets `catalog`,
`tags`, `language` or `filemeta`. -/
theorem claim_C10_meta_fields :
    (∀ (uuid : String) (record : ResourceRecord) (vm : IVideoMeta) (filename : String),
        (mkMeta uuid record vm filename).source.url = vm.url ∧
          (mkMeta uuid record vm filename).source.title = record.title ∧
          (mkMeta uuid record vm filename).source.startTime = record.startTime ∧
          (mkMeta uuid record vm filename).contributor =
            some { name := record.author, link := none } ∧
          (mkMeta uuid record vm filename).catalog = none ∧
          (mkMeta uuid record vm filename).tags = none ∧
          (mkMeta uuid record vm filename).language = none ∧
          (mkMeta uuid record vm filename).filemeta = none) ∧
      (∀ (info : ProviderInfo) (vm : IVideoMeta),
          getVideoMeta (some info) = some vm → vm.url = info.video_url) := by
  constructor
  · intro uuid record vm filename
    exact ⟨rfl, rfl, rfl, rfl, rfl, rfl, rfl, rfl⟩
  · intro info vm h
    rcases hsel : selectBestFormat info.formats with _ | f
    · simp [getVideoMeta, hsel] at h
    · rcases hasr : f.audioSampleRate with _ | n
      · simp [getVideoMeta, hsel, hasr] at h
      · simp only [getVideoMeta, hsel, hasr, Option.some.injEq] at h
        subst h
        rfl

/-- Witness for C10 at the concrete provider response `wInfo`. -/
theorem claim_C10_witness : wVM.url = wInfo.video_url :=
  claim_C10_meta_fields.2 wInfo wVM (by decide)
